import Mathlib

/-!
Verification of the prompt-template library (prompts): the text normalizer used
by `render` (src/prompts/templates.py), the special-token table
(src/prompts/tokens.py), and the `Template` dispatch entity.  Python strings
are modelled as `List Char`; the external Jinja2 expansion engine is modelled
as an arbitrary function parameter.
-/

namespace Prompts

/-- Whitespace characters as recognized by Python `str.isspace` and by the
regex class `\s` on `str` patterns: ASCII whitespace, the C1 separators,
NEL, NBSP, and the Unicode space and line/paragraph separators. -/
def pySpace (c : Char) : Bool :=
  decide (c.toNat = 32 ∨ c.toNat = 9 ∨ c.toNat = 10 ∨ c.toNat = 13 ∨
    c.toNat = 11 ∨ c.toNat = 12 ∨ (28 ≤ c.toNat ∧ c.toNat ≤ 31) ∨
    c.toNat = 0x85 ∨ c.toNat = 0xa0 ∨ c.toNat = 0x1680 ∨
    (0x2000 ≤ c.toNat ∧ c.toNat ≤ 0x200a) ∨ c.toNat = 0x2028 ∨
    c.toNat = 0x2029 ∨ c.toNat = 0x202f ∨ c.toNat = 0x205f ∨ c.toNat = 0x3000)

/-- Word characters of the regex class `\w`, restricted to the ASCII range
(the templates that the repository manipulates use ASCII identifiers). -/
def wordChar (c : Char) : Bool :=
  decide ((65 ≤ c.toNat ∧ c.toNat ≤ 90) ∨ (97 ≤ c.toNat ∧ c.toNat ≤ 122) ∨
    (48 ≤ c.toNat ∧ c.toNat ≤ 57) ∨ c.toNat = 95)

/-- Python `str.expandtabs()` with the default tab size 8, as called first by
`inspect.cleandoc`: a tab is replaced by spaces up to the next multiple of 8
in the current line; a line feed or carriage return resets the column. -/
def expandTabsAux : Nat → List Char → List Char
  | _, [] => []
  | col, c :: cs =>
    if c = '\t' then
      List.replicate (8 - col % 8) ' ' ++ expandTabsAux (col + (8 - col % 8)) cs
    else if c = '\n' ∨ c = '\r' then c :: expandTabsAux 0 cs
    else c :: expandTabsAux (col + 1) cs

def expandTabs (cs : List Char) : List Char := expandTabsAux 0 cs

/-- Python `str.split` on the line-feed character. -/
def splitNL : List Char → List (List Char)
  | [] => [[]]
  | c :: cs =>
    if c = '\n' then [] :: splitNL cs
    else
      match splitNL cs with
      | [] => [[c]]
      | l :: ls => (c :: l) :: ls

/-- Python `"\n".join`. -/
def joinNL : List (List Char) → List Char
  | [] => []
  | [l] => l
  | l :: ls => l ++ '\n' :: joinNL ls

/-- Python `str.lstrip()`: remove leading whitespace. -/
def lstripL (cs : List Char) : List Char := cs.dropWhile pySpace

/-- The leading-whitespace width of a line: `len(line) - len(line.lstrip())`. -/
def indentOf (l : List Char) : Nat := (l.takeWhile pySpace).length

/-- The minimum indentation of the non-blank lines, `None` when every line is
blank (the `sys.maxsize` sentinel of `inspect.cleandoc`). -/
def marginOf (ls : List (List Char)) : Option Nat :=
  ls.foldl
    (fun acc l =>
      if (l.dropWhile pySpace).isEmpty then acc
      else
        match acc with
        | none => some (indentOf l)
        | some m => some (min m (indentOf l)))
    none

/-- The loop `while lines and not lines[-1]: lines.pop()`. -/
def dropTrailingEmpty (ls : List (List Char)) : List (List Char) :=
  (ls.reverse.dropWhile (·.isEmpty)).reverse

/-- The loop `while lines and not lines[0]: lines.pop(0)`. -/
def dropLeadingEmpty (ls : List (List Char)) : List (List Char) :=
  ls.dropWhile (·.isEmpty)

/-- Python `inspect.cleandoc`: expand tabs, split into lines, compute the minimum
indentation of the non-blank lines after the first, strip the first line of
its leading whitespace and the remaining lines of the margin, drop trailing
and leading blank lines, and re-join with line feeds. -/
def cleandocL (cs : List Char) : List Char :=
  match splitNL (expandTabs cs) with
  | [] => []
  | first :: rest =>
    let rest2 :=
      match marginOf rest with
      | none => rest
      | some k => rest.map (List.drop k)
    joinNL (dropLeadingEmpty (dropTrailingEmpty (lstripL first :: rest2)))

/-- Python `template.replace(" ", "")`: remove every plain space character. -/
def removeSpaces (cs : List Char) : List Char := cs.filter (fun c => !(c == ' '))

/-- Python `str.endswith("\n\n")`. -/
def endsWithNN (cs : List Char) : Bool :=
  match cs.reverse with
  | c1 :: c2 :: _ => c1 == '\n' && c2 == '\n'
  | _ => false

/-- The substitution `re.sub(r"(?![\r\n])(\b\s+)", " ", s)` of `render`,
as a left-to-right scan: a maximal whitespace run that is immediately
preceded by a word character (the word boundary `\b`) and whose first
character is neither a carriage return nor a line feed (the lookahead
`(?![\r\n])`) is replaced by a single space; every other character is kept.
`skipping` records that the scan is inside the remainder of a replaced run,
`prevWord` whether the previous character was a word character. -/
def collapseGo : Bool → Bool → List Char → List Char
  | _, _, [] => []
  | skipping, prevWord, c :: cs =>
    if skipping then
      if pySpace c then collapseGo true false cs
      else c :: collapseGo false (wordChar c) cs
    else if prevWord ∧ pySpace c ∧ c ≠ '\r' ∧ c ≠ '\n' then
      ' ' :: collapseGo true false cs
    else
      c :: collapseGo false (wordChar c) cs

def collapseL (cs : List Char) : List Char := collapseGo false false cs

/-- The normalization performed by `render` before template expansion
(templates.py lines 250-262): `inspect.cleandoc`, then one line feed appended
when the original text with all plain spaces removed ends in two line feeds,
then the whitespace-collapsing substitution. -/
def normalizeL (cs : List Char) : List Char :=
  let cleaned := cleandocL cs
  let cleaned2 := if endsWithNN (removeSpaces cs) then cleaned ++ ['\n'] else cleaned
  collapseL cleaned2

def normalize (s : String) : String := ⟨normalizeL s.data⟩

/-- A begin/end pair of special-token strings (tokens.py `Limits`); both
fields default to the empty string. -/
structure Limits where
  begin_ : String
  end_ : String
deriving DecidableEq

/-- The four begin/end pairs attached to a model (tokens.py `Special`). -/
structure Special where
  sequence : Limits
  user : Limits
  assistant : Limits
  system : Limits
deriving DecidableEq

/-- Python `Special()`: every field defaults to the empty pair. -/
def defaultSpecial : Special := ⟨⟨"", ""⟩, ⟨"", ""⟩, ⟨"", ""⟩, ⟨"", ""⟩⟩

/-- The static table tokens.py `SPECIAL_TOKENS`, keyed by optional model
name; the key `None` maps to the all-default entry. -/
def SPECIAL_TOKENS : List (Option String × Special) :=
  [ (none, defaultSpecial),
    (some "google/gemma-2-9b",
      ⟨⟨"<bos>", "<eos>"⟩, ⟨"", ""⟩, ⟨"", ""⟩, ⟨"", ""⟩⟩),
    (some "openai-community/gpt2",
      ⟨⟨"", "<|endoftext|>"⟩, ⟨"", ""⟩, ⟨"", ""⟩, ⟨"", ""⟩⟩),
    (some "mistralai/Mistral-7B-v0.1",
      ⟨⟨"<s>", "</s>"⟩, ⟨"", ""⟩, ⟨"", ""⟩, ⟨"", ""⟩⟩),
    (some "mistralai/Mistral-7B-Instruct-v0.1",
      ⟨⟨"<s>", "</s>"⟩, ⟨"[INST]", "[/INST]"⟩, ⟨"", "</s>"⟩, ⟨"", ""⟩⟩) ]

/-- Dictionary lookup in `SPECIAL_TOKENS`. -/
def lookupTokens (m : Option String) : Option Special :=
  (SPECIAL_TOKENS.find? (fun kv => kv.1 == m)).map (·.2)

/-- The result of `render`: the rendered string together with whether the
unknown-model warning was emitted (the observable side channel of
`warnings.warn`). -/
structure RenderOut where
  output : String
  warned : Bool
deriving DecidableEq

/-- The external Jinja2 expansion engine (an excluded collaborator: it is not
part of this repository).  It receives the cleaned template, the special-token
record exposed through the globals `bos`, `eos`, `user`, `assistant` and
`system`, and the bound substitution values. -/
abbrev Engine : Type := String → Special → List (String × String) → String

/-- templates.py `render`: normalize the template, warn when the model name is
not a key of `SPECIAL_TOKENS`, look the special tokens up with the default
`Special()` fallback, and expand the cleaned template. -/
def render (engine : Engine) (template : String) (model_name : Option String)
    (values : List (String × String)) : RenderOut :=
  let cleaned := normalize template
  let warned := (lookupTokens model_name).isNone
  let sp := (lookupTokens model_name).getD defaultSpecial
  ⟨engine cleaned sp values, warned⟩

/-- A parameter of a prompt-function signature: a name and an optional
declared default (the parameters of the prompt functions in the repository
are all positional-or-keyword). -/
structure Param where
  name : String
  default : Option String
deriving DecidableEq

/-- A declared prompt function as the `template` decorator sees it: its
docstring (`fn.__doc__`, possibly absent) and its signature. -/
structure PromptFn where
  docstring : Option String
  signature : List Param
deriving DecidableEq

/-- Keyword-argument lookup. -/
def lookupKw (kwargs : List (String × String)) (n : String) : Option String :=
  (kwargs.find? (fun kv => kv.1 == n)).map (·.2)

/-- Binding of the parameters left after the positional phase, in signature
order: a keyword value if one was supplied, otherwise the declared default
(`BoundArguments.apply_defaults`), otherwise the missing-required-argument
error of `Signature.bind`. -/
def bindRest : List Param → List (String × String) → Except String (List (String × String))
  | [], _ => .ok []
  | p :: ps, kwargs =>
    match lookupKw kwargs p.name with
    | some v => (bindRest ps kwargs).map (fun r => (p.name, v) :: r)
    | none =>
      match p.default with
      | some d => (bindRest ps kwargs).map (fun r => (p.name, d) :: r)
      | none => .error ("missing a required argument: " ++ p.name)

/-- Python `self.signature.bind(*args, **kwargs)` followed by `apply_defaults`, with
the error precedence of `inspect.Signature.bind`: too many positional
arguments, then a keyword duplicating a positional, then a missing required
argument (in signature order), then an unexpected keyword. -/
def bindArgs (params : List Param) (args : List String)
    (kwargs : List (String × String)) : Except String (List (String × String)) :=
  if params.length < args.length then .error "too many positional arguments"
  else if kwargs.any
      (fun kv => ((params.take args.length).find? (fun p => p.name == kv.1)).isSome) then
    .error "multiple values for argument"
  else
    match bindRest (params.drop args.length) kwargs with
    | .error e => .error e
    | .ok r =>
      if kwargs.any (fun kv => (params.find? (fun p => p.name == kv.1)).isNone) then
        .error "got an unexpected keyword argument"
      else
        .ok (((params.take args.length).zip args).map (fun pa => (pa.1.name, pa.2)) ++ r)

/-- The dispatchable prompt entity (templates.py `Template`): the raw template
body, the stored signature, the optionally bound model, and the registry
mapping model names to registered `Template` instances. -/
inductive Template where
  | mk (template : String) (signature : List Param) (model : Option String)
      (registry : List (String × Template))

def Template.template : Template → String
  | ⟨t, _, _, _⟩ => t

def Template.signature : Template → List Param
  | ⟨_, s, _, _⟩ => s

def Template.model : Template → Option String
  | ⟨_, _, m, _⟩ => m

def Template.registry : Template → List (String × Template)
  | ⟨_, _, _, r⟩ => r

/-- Python `self.registry[model_name]` as a dictionary lookup. -/
def lookupReg (reg : List (String × Template)) (m : String) : Option Template :=
  (reg.find? (fun kv => kv.1 == m)).map (·.2)

/-- Python dictionary assignment `registry[k] = v`: replace the entry in
place when the key exists, append it otherwise. -/
def insertReg : List (String × Template) → String → Template → List (String × Template)
  | [], k, v => [(k, v)]
  | kv :: rest, k, v => if kv.1 = k then (k, v) :: rest else kv :: insertReg rest k v

/-- Python `Template.__getitem__`: return the registered template when the model
name is a registry key; otherwise set `self.model := model_name` and return
`self`.  The first component is the (possibly mutated) receiver, the second
the returned template. -/
def Template.getItem (t : Template) (model_name : String) : Template × Template :=
  match lookupReg t.registry model_name with
  | some tpl => (t, tpl)
  | none =>
    let t2 := Template.mk t.template t.signature (some model_name) t.registry
    (t2, t2)

/-- The `template` decorator (templates.py `template`): fails when the
function has no docstring, otherwise stores the docstring as the raw template
body together with the signature, with no bound model and an empty registry. -/
def templateOfFn (fn : PromptFn) : Except String Template :=
  match fn.docstring with
  | none => .error "Could not find a template in the docstring of the function."
  | some d => .ok (Template.mk d fn.signature none [])

/-- The decorator under its source name (`templateOfFn` exists only because
the name `template` is shadowed by the field accessor inside the `Template`
namespace). -/
def template (fn : PromptFn) : Except String Template := templateOfFn fn

/-- Python `Template.register`: build a `Template` from the second prompt function,
set its model, insert it into the receiver's registry under the model name,
and return it.  The first component is the updated receiver, the second the
newly constructed template. -/
def Template.register (t : Template) (model_name : String) (fn : PromptFn) :
    Except String (Template × Template) :=
  (templateOfFn fn).map (fun tpl0 =>
    let tpl := Template.mk tpl0.template tpl0.signature (some model_name) tpl0.registry
    (Template.mk t.template t.signature t.model (insertReg t.registry model_name tpl),
     tpl))

/-- Python `Template.__call__`: bind the arguments to the stored signature, apply
the declared defaults, and render with the bound values and the bound model. -/
def Template.call (t : Template) (engine : Engine) (args : List String)
    (kwargs : List (String × String)) : Except String RenderOut :=
  (bindArgs t.signature args kwargs).map (fun vals => render engine t.template t.model vals)

/-- Whether an `Except` value is a success. -/
def isOkE {α : Type} : Except String α → Bool
  | .ok _ => true
  | .error _ => false

/-- Modelled from the spec: the external expansion engine is not part of the
repository; this instance is its behavior on a template body consisting of
the single global identifier `bos`, which renders as the begin-of-sequence
token of the bound model. -/
def bosEngine : Engine := fun _ sp _ => sp.sequence.begin_

/-- A dispatcher whose default body references the `bos` global, with no
parameters and an empty registry. -/
def bosTemplate : Template := Template.mk "\x7b\x7b bos \x7d\x7d" [] none []

/-- Line-break characters, as the spec uses the term (the two characters the
regex of the code singles out). -/
def isLB (c : Char) : Bool := c = '\n' || c = '\r'

/-- Horizontal whitespace: whitespace that is not a line break. -/
def hSpace (c : Char) : Bool := pySpace c && !(isLB c)

/-- Scanner states for the spec-described collapsing: just after a line
break, in the middle of a line, inside a collapsed run, inside a spared run. -/
inductive ScanState where
  | afterLB
  | mid
  | skipRun
  | spareRun
deriving DecidableEq

/-- Modelled from the spec, for the refinement comparison of claim C2:
"collapse every run of horizontal whitespace that does not immediately follow
a line-break character into a single space", sparing whitespace right after a
newline and the line-break characters themselves. -/
def specCollapseGo : ScanState → List Char → List Char
  | _, [] => []
  | s, c :: cs =>
    match s with
    | .skipRun =>
      if hSpace c then specCollapseGo .skipRun cs
      else c :: specCollapseGo (if isLB c then .afterLB else .mid) cs
    | .spareRun =>
      if hSpace c then c :: specCollapseGo .spareRun cs
      else c :: specCollapseGo (if isLB c then .afterLB else .mid) cs
    | .afterLB =>
      if hSpace c then c :: specCollapseGo .spareRun cs
      else c :: specCollapseGo (if isLB c then .afterLB else .mid) cs
    | .mid =>
      if hSpace c then ' ' :: specCollapseGo .skipRun cs
      else c :: specCollapseGo (if isLB c then .afterLB else .mid) cs

def specCollapseL (cs : List Char) : List Char := specCollapseGo .mid cs

/-- The amended description of the collapsing step (claim C2): each maximal
whitespace run that immediately follows a word character and does not begin
with a carriage return or line feed becomes a single space; every other run
is kept verbatim. -/
def amendedCollapseAux : Bool → List Char → List Char
  | _, [] => []
  | prevWord, c :: cs =>
    if pySpace c then
      if prevWord ∧ c ≠ '\r' ∧ c ≠ '\n' then
        ' ' :: amendedCollapseAux false (cs.dropWhile pySpace)
      else
        (c :: cs.takeWhile pySpace) ++ amendedCollapseAux false (cs.dropWhile pySpace)
    else c :: amendedCollapseAux (wordChar c) cs
termination_by _ cs => cs.length
decreasing_by
  · exact Nat.lt_succ_of_le ((List.dropWhile_sublist pySpace).length_le)
  · exact Nat.lt_succ_of_le ((List.dropWhile_sublist pySpace).length_le)
  · exact Nat.lt_succ_self _

def amendedCollapseL (cs : List Char) : List Char := amendedCollapseAux false cs

theorem pySpace_not_wordChar {c : Char} (h : pySpace c = true) : wordChar c = false := by
  simp only [pySpace, decide_eq_true_eq] at h
  simp only [wordChar, decide_eq_false_iff_not]
  omega

theorem isOkE_map {α β : Type} (f : α → β) (e : Except String α) :
    isOkE (e.map f) = isOkE e := by
  cases e <;> rfl

theorem lookupReg_cons (kv : String × Template) (rest : List (String × Template))
    (k : String) :
    lookupReg (kv :: rest) k = if kv.1 = k then some kv.2 else lookupReg rest k := by
  by_cases h : kv.1 = k <;> simp [lookupReg, List.find?_cons, h]

theorem lookupReg_insertReg_self (reg : List (String × Template)) (k : String)
    (v : Template) : lookupReg (insertReg reg k v) k = some v := by
  induction reg with
  | nil => simp [insertReg, lookupReg, List.find?]
  | cons kv rest ih =>
    by_cases h : kv.1 = k
    · simp [insertReg, h, lookupReg_cons]
    · simp [insertReg, h, lookupReg_cons, ih]

theorem insertReg_keys (reg : List (String × Template)) (k : String) (v : Template)
    (h : (lookupReg reg k).isSome = true) :
    (insertReg reg k v).map Prod.fst = reg.map Prod.fst := by
  induction reg with
  | nil => simp [lookupReg, List.find?] at h
  | cons kv rest ih =>
    by_cases hk : kv.1 = k
    · simp [insertReg, hk]
    · rw [lookupReg_cons, if_neg hk] at h
      simp [insertReg, hk, ih h]

theorem isOkE_bindRest_missing (kwargs : List (String × String)) :
    ∀ (rest : List Param) (p : Param), p ∈ rest → p.default = none →
      lookupKw kwargs p.name = none → isOkE (bindRest rest kwargs) = false := by
  intro rest
  induction rest with
  | nil => intro p hp _ _; simp at hp
  | cons q qs ih =>
    intro p hp hd hk
    rcases List.mem_cons.mp hp with heq | hmem
    · subst heq
      simp [bindRest, hk, hd, isOkE]
    · cases hlq : lookupKw kwargs q.name with
      | some v => simp [bindRest, hlq, isOkE_map, ih p hmem hd hk]
      | none =>
        cases hdq : q.default with
        | some d => simp [bindRest, hlq, hdq, isOkE_map, ih p hmem hd hk]
        | none => simp [bindRest, hlq, hdq, isOkE]

theorem bindRest_defaults (kwargs : List (String × String)) :
    ∀ (rest : List Param) (r : List (String × String)),
      bindRest rest kwargs = .ok r →
      ∀ p ∈ rest, ∀ d, p.default = some d → lookupKw kwargs p.name = none →
        (p.name, d) ∈ r := by
  intro rest
  induction rest with
  | nil => intro r _ p hp; simp at hp
  | cons q qs ih =>
    intro r hr p hp d hd hk
    rcases List.mem_cons.mp hp with heq | hmem
    · subst heq
      rw [bindRest, hk, hd] at hr
      cases hrec : bindRest qs kwargs with
      | error e => rw [hrec] at hr; cases hr
      | ok r0 =>
        rw [hrec] at hr
        cases hr
        exact List.mem_cons_self _ _
    · cases hlq : lookupKw kwargs q.name with
      | some v =>
        rw [bindRest, hlq] at hr
        cases hrec : bindRest qs kwargs with
        | error e => rw [hrec] at hr; cases hr
        | ok r0 =>
          rw [hrec] at hr
          cases hr
          exact List.mem_cons_of_mem _ (ih r0 hrec p hmem d hd hk)
      | none =>
        cases hdq : q.default with
        | some d0 =>
          rw [bindRest, hlq, hdq] at hr
          cases hrec : bindRest qs kwargs with
          | error e => rw [hrec] at hr; cases hr
          | ok r0 =>
            rw [hrec] at hr
            cases hr
            exact List.mem_cons_of_mem _ (ih r0 hrec p hmem d hd hk)
        | none => rw [bindRest, hlq, hdq] at hr; cases hr

/-- Claim C5: constructing a `Template` from a declared function fails at
construction time exactly when the function has no extractable text body (no
docstring); when a docstring is present, construction succeeds and stores it
as the raw template body together with the signature. -/
theorem C5_template_construction (fn : PromptFn) :
    (isOkE (template fn) = true ↔ fn.docstring.isSome = true) ∧
    (∀ d, fn.docstring = some d →
      template fn = Except.ok (Template.mk d fn.signature none [])) := by
  constructor
  · cases h : fn.docstring <;> simp [template, templateOfFn, h, isOkE]
  · intro d hd
    simp [template, templateOfFn, hd]

theorem C5_witness :
    template ⟨some "body", []⟩ = Except.ok (Template.mk "body" [] none []) :=
  (C5_template_construction ⟨some "body", []⟩).2 "body" rfl

/-- Claim C6: calling a `Template` binds the arguments to its stored
signature and fails whenever binding fails: too many positional arguments,
an unknown keyword, or a missing required parameter (regardless of how many
optional parameters are supplied); declared defaults are applied for omitted
optional parameters before rendering. -/
theorem C6_call_binding (engine : Engine) (t : Template) (args : List String)
    (kwargs : List (String × String)) :
    (isOkE (t.call engine args kwargs) = isOkE (bindArgs t.signature args kwargs)) ∧
    (t.signature.length < args.length →
      isOkE (bindArgs t.signature args kwargs) = false) ∧
    ((∃ kv ∈ kwargs, ∀ p ∈ t.signature, p.name ≠ kv.1) →
      isOkE (bindArgs t.signature args kwargs) = false) ∧
    ((∃ p ∈ t.signature.drop args.length,
        p.default = none ∧ lookupKw kwargs p.name = none) →
      isOkE (bindArgs t.signature args kwargs) = false) ∧
    (∀ r, bindArgs t.signature args kwargs = .ok r →
      ∀ p ∈ t.signature.drop args.length, ∀ d, p.default = some d →
        lookupKw kwargs p.name = none → (p.name, d) ∈ r) := by
  refine ⟨isOkE_map _ _, ?_, ?_, ?_, ?_⟩
  · intro hlt
    simp [bindArgs, hlt, isOkE]
  · intro hun
    by_cases h1 : t.signature.length < args.length
    · simp [bindArgs, h1, isOkE]
    · by_cases h2 : kwargs.any
        (fun kv => ((t.signature.take args.length).find? (fun p => p.name == kv.1)).isSome)
      · simp [bindArgs, h1, h2, isOkE]
      · obtain ⟨kv, hkv, hall⟩ := hun
        have hfind : (t.signature.find? (fun p => p.name == kv.1)) = none := by
          rw [List.find?_eq_none]
          intro p hp
          simp [hall p hp]
        have hany : kwargs.any
            (fun kv => (t.signature.find? (fun p => p.name == kv.1)).isNone) = true := by
          rw [List.any_eq_true]
          exact ⟨kv, hkv, by simp [hfind]⟩
        cases hbr : bindRest (t.signature.drop args.length) kwargs with
        | error e => simp [bindArgs, h1, h2, hbr, isOkE]
        | ok r => simp [bindArgs, h1, h2, hbr, hany, isOkE]
  · intro hmiss
    obtain ⟨p, hp, hd, hk⟩ := hmiss
    have hfail := isOkE_bindRest_missing kwargs (t.signature.drop args.length) p hp hd hk
    by_cases h1 : t.signature.length < args.length
    · simp [bindArgs, h1, isOkE]
    · by_cases h2 : kwargs.any
        (fun kv => ((t.signature.take args.length).find? (fun p => p.name == kv.1)).isSome)
      · simp [bindArgs, h1, h2, isOkE]
      · cases hbr : bindRest (t.signature.drop args.length) kwargs with
        | error e => simp [bindArgs, h1, h2, hbr, isOkE]
        | ok r => rw [hbr] at hfail; simp [isOkE] at hfail
  · intro r hr p hp d hd hk
    by_cases h1 : t.signature.length < args.length
    · rw [bindArgs, if_pos h1] at hr
      exact Except.noConfusion hr
    · by_cases h2 : kwargs.any
        (fun kv => ((t.signature.take args.length).find? (fun p => p.name == kv.1)).isSome) = true
      · rw [bindArgs, if_neg h1, if_pos h2] at hr
        exact Except.noConfusion hr
      · cases hbr : bindRest (t.signature.drop args.length) kwargs with
        | error e =>
          rw [bindArgs, if_neg h1, if_neg h2, hbr] at hr
          exact Except.noConfusion hr
        | ok r0 =>
          rw [bindArgs, if_neg h1, if_neg h2, hbr] at hr
          have hr2 : (if (kwargs.any
                (fun kv => (t.signature.find? (fun p => p.name == kv.1)).isNone)) = true then
              (Except.error "got an unexpected keyword argument" :
                Except String (List (String × String)))
            else
              .ok (((t.signature.take args.length).zip args).map
                (fun pa => (pa.1.name, pa.2)) ++ r0)) = .ok r := hr
          by_cases h3 : kwargs.any
              (fun kv => (t.signature.find? (fun p => p.name == kv.1)).isNone) = true
          · rw [if_pos h3] at hr2
            exact Except.noConfusion hr2
          · rw [if_neg h3] at hr2
            cases hr2
            exact List.mem_append_right _ (bindRest_defaults kwargs _ r0 hbr p hp d hd hk)

theorem C6_witness :
    isOkE (bindArgs [⟨"var", none⟩, ⟨"other", some "o"⟩] [] [("other", "y")]) = false :=
  (C6_call_binding (fun _ _ _ => "")
      (Template.mk "x" [⟨"var", none⟩, ⟨"other", some "o"⟩] none [])
      [] [("other", "y")]).2.2.2.1
    ⟨⟨"var", none⟩, by decide, rfl, rfl⟩

/-- Claim C7: rendering with a non-empty model name that is not a key of the
special-token table emits the non-fatal unknown-model warning, substitutes
the default empty-string special tokens, and still succeeds, returning the
expanded string. -/
theorem C7_unknown_model_warning (engine : Engine) (tpl : String) (m : String)
    (values : List (String × String)) (hne : m ≠ "")
    (htok : lookupTokens (some m) = none) :
    render engine tpl (some m) values =
      ⟨engine (normalize tpl) ⟨⟨"", ""⟩, ⟨"", ""⟩, ⟨"", ""⟩, ⟨"", ""⟩⟩ values, true⟩ := by
  unfold render
  rw [htok]
  rfl

theorem C7_witness :
    ("llama" : String) ≠ "" ∧
    render (fun _ sp _ => sp.sequence.end_) "x" (some "llama") [] = ⟨"", true⟩ :=
  ⟨by decide, C7_unknown_model_warning (fun _ sp _ => sp.sequence.end_) "x" "llama" []
    (by decide) rfl⟩

/-- Claim C8: registering a second template under an already-registered model
name replaces the first registration in place, leaving the registry keys (and
hence its size) unchanged, and registering always returns the newly
constructed `Template` with its model field set to the model name. -/
theorem C8_register_replaces (t : Template) (m : String) (fn : PromptFn) (d : String)
    (hdoc : fn.docstring = some d) :
    t.register m fn =
      Except.ok
        (Template.mk t.template t.signature t.model
          (insertReg t.registry m (Template.mk d fn.signature (some m) [])),
         Template.mk d fn.signature (some m) []) ∧
    lookupReg (insertReg t.registry m (Template.mk d fn.signature (some m) [])) m =
      some (Template.mk d fn.signature (some m) []) ∧
    ((lookupReg t.registry m).isSome = true →
      (insertReg t.registry m (Template.mk d fn.signature (some m) [])).map Prod.fst =
        t.registry.map Prod.fst ∧
      (insertReg t.registry m (Template.mk d fn.signature (some m) [])).length =
        t.registry.length) := by
  refine ⟨?_, lookupReg_insertReg_self _ _ _, ?_⟩
  · obtain ⟨tp, sg, md, rg⟩ := t
    simp [Template.register, templateOfFn, hdoc, Except.map, Template.template,
      Template.signature, Template.model, Template.registry]
  · intro hmem
    have hkeys := insertReg_keys t.registry m (Template.mk d fn.signature (some m) []) hmem
    refine ⟨hkeys, ?_⟩
    have := congrArg List.length hkeys
    simpa using this

theorem C8_witness :
    (Template.mk "x" [] none [("m", Template.mk "y" [] (some "m") [])]).register "m"
        ⟨some "z", []⟩ =
      Except.ok
        (Template.mk "x" [] none [("m", Template.mk "z" [] (some "m") [])],
         Template.mk "z" [] (some "m") []) ∧
    ([("m", Template.mk "z" [] (some "m") [])] : List (String × Template)).length =
      ([("m", Template.mk "y" [] (some "m") [])] : List (String × Template)).length :=
  ⟨(C8_register_replaces
      (Template.mk "x" [] none [("m", Template.mk "y" [] (some "m") [])])
      "m" ⟨some "z", []⟩ "z" rfl).1,
   ((C8_register_replaces
      (Template.mk "x" [] none [("m", Template.mk "y" [] (some "m") [])])
      "m" ⟨some "z", []⟩ "z" rfl).2.2 rfl).2⟩

/-- Claim C9: looking up a model name that is a registry key leaves the
receiver completely unchanged: the lookup returns the registered instance and
the receiver keeps its template, signature, model and registry. -/
theorem C9_registered_lookup_pure (t : Template) (m : String) (r : Template)
    (h : lookupReg t.registry m = some r) :
    t.getItem m = (t, r) ∧
    (t.getItem m).1.model = t.model ∧
    (t.getItem m).1.template = t.template ∧
    (t.getItem m).1.signature = t.signature ∧
    (t.getItem m).1.registry = t.registry := by
  have h1 : t.getItem m = (t, r) := by
    unfold Template.getItem
    rw [h]
  refine ⟨h1, ?_, ?_, ?_, ?_⟩ <;> rw [h1]

theorem C9_witness :
    (Template.mk "x" [] none [("m", Template.mk "y" [] (some "m") [])]).getItem "m" =
      (Template.mk "x" [] none [("m", Template.mk "y" [] (some "m") [])],
       Template.mk "y" [] (some "m") []) :=
  (C9_registered_lookup_pure
    (Template.mk "x" [] none [("m", Template.mk "y" [] (some "m") [])])
    "m" (Template.mk "y" [] (some "m") []) rfl).1

/-- Claim C10: rendering with no model name never warns, because the sentinel
`None` is itself a key of the special-token table, and its entry makes every
special-token global the empty string. -/
theorem C10_none_model_defaults (engine : Engine) (tpl : String)
    (values : List (String × String)) :
    (render engine tpl none values).warned = false ∧
    lookupTokens none = some ⟨⟨"", ""⟩, ⟨"", ""⟩, ⟨"", ""⟩, ⟨"", ""⟩⟩ :=
  ⟨rfl, rfl⟩

/-- Claim C3 counterexample: for the unregistered but token-table-known model
name `google/gemma-2-9b`, calling the template returned by indexing does not
produce output identical to calling with no model name: the former renders
the gemma begin-of-sequence token, the latter the empty string. -/
theorem C3_counterexample :
    lookupReg bosTemplate.registry "google/gemma-2-9b" = none ∧
    bosTemplate.model = none ∧
    ((bosTemplate.getItem "google/gemma-2-9b").2).call bosEngine [] [] =
      Except.ok ⟨"<bos>", false⟩ ∧
    bosTemplate.call bosEngine [] [] = Except.ok ⟨"", false⟩ ∧
    (⟨"<bos>", false⟩ : RenderOut) ≠ ⟨"", false⟩ := by
  refine ⟨rfl, rfl, rfl, rfl, by decide⟩

/-- Claim C3 amended: indexing with a model name that is not a registry key
mutates the receiver by binding the model name, creates no registry entry,
and returns the receiver itself; provided the name is additionally not a key
of the special-token table, calling the returned template produces output
identical to calling the original (unbound) template; indexing with a
registered name returns the registered instance. -/
theorem C3_amended (engine : Engine) (t : Template) (m : String) (args : List String)
    (kwargs : List (String × String)) :
    ((lookupReg t.registry m = none →
      (t.getItem m).2 = (t.getItem m).1 ∧
      (t.getItem m).1 = Template.mk t.template t.signature (some m) t.registry ∧
      (t.getItem m).1.registry = t.registry ∧
      (lookupTokens (some m) = none → t.model = none →
        (((t.getItem m).2).call engine args kwargs).map RenderOut.output =
          (t.call engine args kwargs).map RenderOut.output))) ∧
    (∀ r, lookupReg t.registry m = some r → t.getItem m = (t, r)) := by
  obtain ⟨tp, sg, md, rg⟩ := t
  constructor
  · intro hreg
    have hreg2 : lookupReg rg m = none := hreg
    have hget : (Template.mk tp sg md rg).getItem m =
        (Template.mk tp sg (some m) rg, Template.mk tp sg (some m) rg) := by
      simp [Template.getItem, Template.registry, Template.template, Template.signature,
        hreg2]
    refine ⟨by rw [hget], by rw [hget]; rfl, by rw [hget]; rfl, ?_⟩
    intro htok hmodel
    have hmd : md = none := hmodel
    subst hmd
    rw [hget]
    have hcall1 : (Template.mk tp sg (some m) rg).call engine args kwargs =
        (bindArgs sg args kwargs).map (fun vals => render engine tp (some m) vals) := rfl
    have hcall2 : (Template.mk tp sg none rg).call engine args kwargs =
        (bindArgs sg args kwargs).map (fun vals => render engine tp none vals) := rfl
    rw [hcall1, hcall2]
    cases hb : bindArgs sg args kwargs with
    | error e => rfl
    | ok vals =>
      simp only [Except.map, Except.map_ok]
      unfold render
      rw [htok]
      rfl
  · intro r hr
    have hr2 : lookupReg rg m = some r := hr
    simp [Template.getItem, Template.registry, hr2]

theorem C3_amended_witness :
    ((Template.mk "x" [] none []).getItem "somemodel").2 =
      ((Template.mk "x" [] none []).getItem "somemodel").1 ∧
    ((((Template.mk "x" [] none []).getItem "somemodel").2).call
        (fun _ sp _ => sp.sequence.begin_) [] []).map RenderOut.output =
      ((Template.mk "x" [] none []).call
        (fun _ sp _ => sp.sequence.begin_) [] []).map RenderOut.output := by
  have h := (C3_amended (fun _ sp _ => sp.sequence.begin_)
    (Template.mk "x" [] none []) "somemodel" [] []).1 rfl
  exact ⟨h.1, h.2.2.2 rfl rfl⟩

/-- Claim C1: the normalization performed by `render` (before template
expansion, with no substitution values) satisfies the literal examples of the
spec: a leading blank line is dropped and the common indentation stripped; a
single trailing blank-ish line is removed; a fully blank line at the very end
adds exactly one trailing line feed; and two trailing blank lines still add
exactly one. -/
theorem C1_normalize_examples :
    normalize "\n    A new string" = "A new string" ∧
    normalize "\n    A new string\n    " = "A new string" ∧
    normalize "\n    A new string\n\n    " = "A new string\n" ∧
    normalize "\n    A new string\n\n\n    " = "A new string\n" := by
  refine ⟨?_, ?_, ?_, ?_⟩ <;> decide

/-- Claim C2 counterexample: the collapsing step of `render` does not behave
as the claim describes.  The run after the full stop in `"a.  b"` does not
follow a line break, yet the code leaves it unchanged (no word boundary),
while the described behavior collapses it; and in `"a  \nb"` the code
consumes the line-feed character into the replaced run, while the described
behavior leaves line breaks unchanged. -/
theorem C2_counterexample :
    collapseL "a.  b".data = "a.  b".data ∧
    specCollapseL "a.  b".data = "a. b".data ∧
    "a.  b" ≠ "a. b" ∧
    collapseL "a  \nb".data = "a b".data ∧
    specCollapseL "a  \nb".data = "a \nb".data := by
  refine ⟨by decide, by decide, by decide, by decide, by decide⟩

theorem collapseGo_skip (cs : List Char) :
    ∀ b b2, collapseGo true b cs = collapseGo false b2 (cs.dropWhile pySpace) := by
  induction cs with
  | nil => intro b b2; rfl
  | cons c cs ih =>
    intro b b2
    by_cases h : pySpace c = true
    · rw [List.dropWhile_cons_of_pos h]
      rw [show collapseGo true b (c :: cs) = collapseGo true false cs by
        simp [collapseGo, h]]
      exact ih false b2
    · rw [List.dropWhile_cons_of_neg (by simp [h])]
      simp [collapseGo, h]

theorem collapseGo_spare (cs : List Char) :
    collapseGo false false cs =
      cs.takeWhile pySpace ++ collapseGo false false (cs.dropWhile pySpace) := by
  induction cs with
  | nil => rfl
  | cons c cs ih =>
    by_cases h : pySpace c = true
    · rw [List.takeWhile_cons_of_pos h, List.dropWhile_cons_of_pos h]
      rw [show collapseGo false false (c :: cs) = c :: collapseGo false false cs by
        simp [collapseGo, h, pySpace_not_wordChar h]]
      simp [ih]
    · rw [List.takeWhile_cons_of_neg (by simp [h]), List.dropWhile_cons_of_neg (by simp [h])]
      rfl

theorem collapseGo_eq_amended :
    ∀ (n : Nat) (cs : List Char), cs.length ≤ n →
      ∀ b, collapseGo false b cs = amendedCollapseAux b cs := by
  intro n
  induction n with
  | zero =>
    intro cs hcs b
    have : cs = [] := List.length_eq_zero.mp (Nat.le_zero.mp hcs)
    subst this
    simp [collapseGo, amendedCollapseAux]
  | succ n ih =>
    intro cs hcs b
    cases cs with
    | nil => simp [collapseGo, amendedCollapseAux]
    | cons c cs =>
      have hlen : cs.length ≤ n := Nat.le_of_succ_le_succ hcs
      have hdrop : (cs.dropWhile pySpace).length ≤ n :=
        le_trans ((List.dropWhile_sublist pySpace).length_le) hlen
      by_cases hsp : pySpace c = true
      · by_cases hcond : b = true ∧ c ≠ '\r' ∧ c ≠ '\n'
        · obtain ⟨hb, hr, hn⟩ := hcond
          subst hb
          rw [show collapseGo false true (c :: cs) = ' ' :: collapseGo true false cs by
            simp [collapseGo, hsp, hr, hn]]
          rw [show amendedCollapseAux true (c :: cs) =
              ' ' :: amendedCollapseAux false (cs.dropWhile pySpace) by
            simp [amendedCollapseAux, hsp, hr, hn]]
          rw [collapseGo_skip cs false false]
          rw [ih (cs.dropWhile pySpace) hdrop false]
        · rw [show collapseGo false b (c :: cs) = c :: collapseGo false false cs by
            simp only [collapseGo]
            rw [if_neg (by simp), if_neg (by tauto), pySpace_not_wordChar hsp]]
          rw [show amendedCollapseAux b (c :: cs) =
              (c :: cs.takeWhile pySpace) ++ amendedCollapseAux false (cs.dropWhile pySpace) by
            simp only [amendedCollapseAux]
            rw [if_pos hsp, if_neg (by tauto)]]
          rw [collapseGo_spare cs, ih (cs.dropWhile pySpace) hdrop false]
          simp
      · rw [show collapseGo false b (c :: cs) = c :: collapseGo false (wordChar c) cs by
          simp [collapseGo, hsp]]
        rw [show amendedCollapseAux b (c :: cs) = c :: amendedCollapseAux (wordChar c) cs by
          simp [amendedCollapseAux, hsp]]
        rw [ih cs hlen (wordChar c)]

/-- Claim C2 amended: for every input, the collapsing step of `render`
replaces each maximal whitespace run (possibly containing line breaks, which
are then removed) that immediately follows a word character (letter, digit or
underscore) and does not begin with a carriage return or line feed by a
single space, and leaves every other whitespace character — including runs
after punctuation and whitespace immediately following a line break —
unchanged. -/
theorem C2_amended (s : String) : collapseL s.data = amendedCollapseL s.data :=
  collapseGo_eq_amended s.data.length s.data (Nat.le_refl _) false

theorem dropWhile_head_false {α : Type} {p : α → Bool} :
    ∀ {l : List α} {c : α} {t : List α}, l.dropWhile p = c :: t → p c = false := by
  intro l
  induction l with
  | nil => intro c t h; cases h
  | cons a l ih =>
    intro c t h
    by_cases ha : p a = true
    · rw [List.dropWhile_cons_of_pos ha] at h
      exact ih h
    · rw [List.dropWhile_cons_of_neg (by simp [ha])] at h
      cases h
      simpa using ha

theorem collapseGo_cons_not_space {b : Bool} {c : Char} {cs : List Char}
    (h : pySpace c = false) :
    collapseGo false b (c :: cs) = c :: collapseGo false (wordChar c) cs := by
  simp [collapseGo, h]

theorem collapseGo_idem :
    ∀ (n : Nat) (cs : List Char), cs.length ≤ n →
      ∀ b, collapseGo false b (collapseGo false b cs) = collapseGo false b cs := by
  intro n
  induction n with
  | zero =>
    intro cs hcs b
    have : cs = [] := List.length_eq_zero.mp (Nat.le_zero.mp hcs)
    subst this
    rfl
  | succ n ih =>
    intro cs hcs b
    cases cs with
    | nil => rfl
    | cons c cs =>
      have hlen : cs.length ≤ n := Nat.le_of_succ_le_succ hcs
      have hdrop : (cs.dropWhile pySpace).length ≤ n :=
        le_trans ((List.dropWhile_sublist pySpace).length_le) hlen
      by_cases hsp : pySpace c = true
      · by_cases hcond : b = true ∧ c ≠ '\r' ∧ c ≠ '\n'
        · obtain ⟨hb, hr, hn⟩ := hcond
          subst hb
          rw [show collapseGo false true (c :: cs) = ' ' :: collapseGo true false cs by
            simp [collapseGo, hsp, hr, hn]]
          rw [collapseGo_skip cs false false]
          rw [show collapseGo false true
              (' ' :: collapseGo false false (cs.dropWhile pySpace)) =
              ' ' :: collapseGo true false (collapseGo false false (cs.dropWhile pySpace)) by
            simp [collapseGo, show pySpace ' ' = true from by decide,
              show (' ' : Char) ≠ '\r' from by decide,
              show (' ' : Char) ≠ '\n' from by decide]]
          rw [collapseGo_skip (collapseGo false false (cs.dropWhile pySpace)) false false]
          have hfix : (collapseGo false false (cs.dropWhile pySpace)).dropWhile pySpace =
              collapseGo false false (cs.dropWhile pySpace) := by
            cases hrest : cs.dropWhile pySpace with
            | nil => rfl
            | cons c2 t =>
              have hc2 : pySpace c2 = false := dropWhile_head_false hrest
              rw [collapseGo_cons_not_space hc2]
              exact List.dropWhile_cons_of_neg (by simp [hc2])
          rw [hfix, ih (cs.dropWhile pySpace) hdrop false]
        · have hcond2 : ¬(b = true ∧ c ≠ '\r' ∧ c ≠ '\n') := hcond
          have hw : wordChar c = false := pySpace_not_wordChar hsp
          rw [show collapseGo false b (c :: cs) = c :: collapseGo false false cs by
            simp only [collapseGo]
            rw [if_neg (by simp), if_neg (by tauto), hw]]
          rw [show collapseGo false b (c :: collapseGo false false cs) =
              c :: collapseGo false false (collapseGo false false cs) by
            simp only [collapseGo]
            rw [if_neg (by simp), if_neg (by tauto), hw]]
          rw [ih cs hlen false]
      · rw [collapseGo_cons_not_space (by simpa using hsp)]
        rw [collapseGo_cons_not_space (by simpa using hsp)]
        rw [ih cs hlen (wordChar c)]

theorem mem_expandTabsAux {c : Char} :
    ∀ (col : Nat) (cs : List Char), c ∈ expandTabsAux col cs → c ∈ cs ∨ c = ' ' := by
  intro col cs
  induction cs generalizing col with
  | nil => intro h; cases h
  | cons a cs ih =>
    intro h
    by_cases ha : a = '\t'
    · rw [expandTabsAux, if_pos ha] at h
      rcases List.mem_append.mp h with hrep | hrec
      · exact Or.inr (List.eq_of_mem_replicate hrep)
      · rcases ih _ hrec with hm | he
        · exact Or.inl (List.mem_cons_of_mem _ hm)
        · exact Or.inr he
    · by_cases hnl : a = '\n' ∨ a = '\r'
      · rw [expandTabsAux, if_neg ha, if_pos hnl] at h
        rcases List.mem_cons.mp h with he | hrec
        · exact Or.inl (he ▸ List.mem_cons_self _ _)
        · rcases ih _ hrec with hm | he
          · exact Or.inl (List.mem_cons_of_mem _ hm)
          · exact Or.inr he
      · rw [expandTabsAux, if_neg ha, if_neg hnl] at h
        rcases List.mem_cons.mp h with he | hrec
        · exact Or.inl (he ▸ List.mem_cons_self _ _)
        · rcases ih _ hrec with hm | he
          · exact Or.inl (List.mem_cons_of_mem _ hm)
          · exact Or.inr he

theorem noTab_expandTabsAux : ∀ (col : Nat) (cs : List Char), '\t' ∉ expandTabsAux col cs := by
  intro col cs
  induction cs generalizing col with
  | nil => intro h; cases h
  | cons a cs ih =>
    intro h
    by_cases ha : a = '\t'
    · rw [expandTabsAux, if_pos ha] at h
      rcases List.mem_append.mp h with hrep | hrec
      · have := List.eq_of_mem_replicate hrep
        cases this
      · exact ih _ hrec
    · by_cases hnl : a = '\n' ∨ a = '\r'
      · rw [expandTabsAux, if_neg ha, if_pos hnl] at h
        rcases List.mem_cons.mp h with he | hrec
        · exact ha he.symm
        · exact ih _ hrec
      · rw [expandTabsAux, if_neg ha, if_neg hnl] at h
        rcases List.mem_cons.mp h with he | hrec
        · exact ha he.symm
        · exact ih _ hrec

theorem expandTabsAux_noTab (cs : List Char) (h : '\t' ∉ cs) :
    ∀ col, expandTabsAux col cs = cs := by
  induction cs with
  | nil => intro col; rfl
  | cons a cs ih =>
    intro col
    have ha : a ≠ '\t' := fun he => h (he ▸ List.mem_cons_self _ _)
    have hcs : '\t' ∉ cs := fun hm => h (List.mem_cons_of_mem _ hm)
    by_cases hnl : a = '\n' ∨ a = '\r'
    · rw [expandTabsAux, if_neg ha, if_pos hnl, ih hcs]
    · rw [expandTabsAux, if_neg ha, if_neg hnl, ih hcs]

theorem mem_collapseGo {c : Char} :
    ∀ (cs : List Char) (sk b : Bool), c ∈ collapseGo sk b cs → c ∈ cs ∨ c = ' ' := by
  intro cs
  induction cs with
  | nil => intro sk b h; cases h
  | cons a cs ih =>
    intro sk b h
    cases sk with
    | true =>
      by_cases ha : pySpace a = true
      · rw [show collapseGo true b (a :: cs) = collapseGo true false cs by
          simp [collapseGo, ha]] at h
        rcases ih true false h with hm | he
        · exact Or.inl (List.mem_cons_of_mem _ hm)
        · exact Or.inr he
      · rw [show collapseGo true b (a :: cs) = a :: collapseGo false (wordChar a) cs by
          simp [collapseGo, ha]] at h
        rcases List.mem_cons.mp h with he | hrec
        · exact Or.inl (he ▸ List.mem_cons_self _ _)
        · rcases ih false (wordChar a) hrec with hm | he
          · exact Or.inl (List.mem_cons_of_mem _ hm)
          · exact Or.inr he
    | false =>
      by_cases hcond : b = true ∧ pySpace a = true ∧ a ≠ '\r' ∧ a ≠ '\n'
      · obtain ⟨hb, hsp, hr, hn⟩ := hcond
        subst hb
        rw [show collapseGo false true (a :: cs) = ' ' :: collapseGo true false cs by
          simp [collapseGo, hsp, hr, hn]] at h
        rcases List.mem_cons.mp h with he | hrec
        · exact Or.inr he
        · rcases ih true false hrec with hm | he
          · exact Or.inl (List.mem_cons_of_mem _ hm)
          · exact Or.inr he
      · rw [show collapseGo false b (a :: cs) = a :: collapseGo false (wordChar a) cs by
          simp only [collapseGo]
          rw [if_neg (by simp), if_neg (by tauto)]] at h
        rcases List.mem_cons.mp h with he | hrec
        · exact Or.inl (he ▸ List.mem_cons_self _ _)
        · rcases ih false (wordChar a) hrec with hm | he
          · exact Or.inl (List.mem_cons_of_mem _ hm)
          · exact Or.inr he

theorem splitNL_noNL (cs : List Char) (h : '\n' ∉ cs) : splitNL cs = [cs] := by
  induction cs with
  | nil => rfl
  | cons a cs ih =>
    have ha : a ≠ '\n' := fun he => h (he ▸ List.mem_cons_self _ _)
    have hcs : '\n' ∉ cs := fun hm => h (List.mem_cons_of_mem _ hm)
    rw [splitNL, if_neg ha, ih hcs]

theorem endsWithNN_mem {l : List Char} (h : endsWithNN l = true) : '\n' ∈ l := by
  rw [endsWithNN] at h
  rcases hrev : l.reverse with _ | ⟨c1, t⟩
  · rw [hrev] at h; cases h
  · rcases t with _ | ⟨c2, t2⟩
    · rw [hrev] at h; cases h
    · rw [hrev] at h
      have hc1 : c1 = '\n' := by
        have := (Bool.and_eq_true _ _).mp h
        simpa using this.1
      have : c1 ∈ l.reverse := by rw [hrev]; exact List.mem_cons_self _ _
      rw [← List.mem_reverse]
      exact hc1 ▸ this

theorem cleandocL_noNL (cs : List Char) (h : '\n' ∉ cs) :
    cleandocL cs = lstripL (expandTabs cs) := by
  have hexp : '\n' ∉ expandTabs cs := by
    intro hm
    rcases mem_expandTabsAux 0 cs hm with hm2 | he
    · exact h hm2
    · cases he
  rw [cleandocL, splitNL_noNL _ hexp]
  show joinNL (dropLeadingEmpty (dropTrailingEmpty [lstripL (expandTabs cs)])) = _
  cases hl : lstripL (expandTabs cs) with
  | nil => rfl
  | cons a t =>
    show joinNL (dropLeadingEmpty (dropTrailingEmpty [a :: t])) = a :: t
    rw [dropTrailingEmpty]
    show joinNL (dropLeadingEmpty (([a :: t].dropWhile (·.isEmpty)).reverse)) = a :: t
    rw [List.dropWhile_cons_of_neg (by simp)]
    rw [show ([a :: t] : List (List Char)).reverse = [a :: t] from rfl]
    rw [dropLeadingEmpty, List.dropWhile_cons_of_neg (by simp)]
    rfl

theorem normalizeL_noNL (cs : List Char) (h : '\n' ∉ cs) :
    normalizeL cs = collapseL (lstripL (expandTabs cs)) := by
  have hrem : endsWithNN (removeSpaces cs) = false := by
    cases he : endsWithNN (removeSpaces cs)
    · rfl
    · exfalso
      have h2 : '\n' ∈ cs.filter (fun c => !(c == ' ')) := endsWithNN_mem he
      exact h (List.mem_of_mem_filter h2)
  rw [normalizeL]
  simp only [hrem, if_false, Bool.false_eq_true]
  rw [cleandocL_noNL cs h]

/-- Claim C4 counterexample: the normalization of `render` is not idempotent.
On `"a \nb\n  c"` the whitespace collapsing merges the second line into the
first, so a second pass sees a different common indentation and dedents the
remaining line further. -/
theorem C4_counterexample :
    normalize "a \nb\n  c" = "a b\n  c" ∧
    normalize "a b\n  c" = "a b\nc" ∧
    normalize (normalize "a \nb\n  c") ≠ normalize "a \nb\n  c" := by
  refine ⟨by decide, by decide, by decide⟩

/-- Claim C4 amended: the normalization of `render` is idempotent on every
input that contains no line-feed character (in general a second application
can differ, because whitespace collapsing can merge a line into the previous
one and thereby change the common indentation that dedenting removes). -/
theorem C4_amended (s : String) (h : '\n' ∉ s.data) :
    normalize (normalize s) = normalize s := by
  show (⟨normalizeL (normalizeL s.data)⟩ : String) = ⟨normalizeL s.data⟩
  have h1 : normalizeL s.data = collapseL (lstripL (expandTabs s.data)) :=
    normalizeL_noNL s.data h
  rw [h1]
  congr 1
  set w := lstripL (expandTabs s.data) with hw
  have hnlu : '\n' ∉ collapseL w := by
    intro hm
    rcases mem_collapseGo w false false hm with hm2 | he
    · have hm3 : '\n' ∈ expandTabs s.data := (List.dropWhile_sublist pySpace).subset hm2
      rcases mem_expandTabsAux 0 s.data hm3 with hm4 | he2
      · exact h hm4
      · cases he2
    · cases he
  have hntu : '\t' ∉ collapseL w := by
    intro hm
    rcases mem_collapseGo w false false hm with hm2 | he
    · have hm3 : '\t' ∈ expandTabs s.data := (List.dropWhile_sublist pySpace).subset hm2
      exact noTab_expandTabsAux 0 s.data hm3
    · cases he
  rw [normalizeL_noNL (collapseL w) hnlu]
  rw [show expandTabs (collapseL w) = collapseL w from
    expandTabsAux_noTab (collapseL w) hntu 0]
  have hlstrip : lstripL (collapseL w) = collapseL w := by
    cases hrest : w with
    | nil => rfl
    | cons c t =>
      have hc : pySpace c = false := by
        apply dropWhile_head_false (p := pySpace) (l := expandTabs s.data)
        rw [← hrest, hw]
        rfl
      show lstripL (collapseGo false false (c :: t)) = _
      rw [collapseGo_cons_not_space hc]
      exact List.dropWhile_cons_of_neg (by simp [hc])
  rw [hlstrip]
  exact collapseGo_idem w.length w (Nat.le_refl _) false

theorem C4_amended_witness :
    ('\n' ∉ ("ab  c" : String).data) ∧
    normalize (normalize "ab  c") = normalize "ab  c" :=
  ⟨by decide, C4_amended "ab  c" (by decide)⟩

end Prompts
